import Mathlib

/-!
Verification of the @vueuse/motion animation core (`src/dist/index.mjs`).

A shallow embedding of the animation-orchestration core of the repository:
JavaScript runtime values are modelled by `JSValue` (numbers as `ℚ`, with an
explicit `nan`), objects by association lists, promises/completions by token
sets, and the frame scheduler by explicit frame records.  Each definition is
translated from the source file; external library capabilities (popmotion,
style-value-types, vue reactivity) are either parameters of the definitions
or small exact models of the documented library functions, marked as such.
-/

namespace Motion

/-- A JavaScript runtime value as used by the animation core: numbers
(modelled as `ℚ`), strings, arrays, `undefined`, and `NaN` (kept separate
from `num` so that failed numeric coercions are visible). -/
inductive JSValue where
  | num (q : ℚ)
  | str (s : String)
  | arr (vs : List JSValue)
  | undefined
  | nan
deriving Repr

/-- JavaScript strict equality `v === 0` against the number literal `0`. -/
def isNumZero : JSValue → Bool
  | .num q => q = 0
  | _ => false

/-- JavaScript strict equality `v === "none"` against the string literal. -/
def isStrNone : JSValue → Bool
  | .str s => s = "none"
  | _ => false

/-- Association-list lookup, modelling JavaScript property access `o[k]`
(first binding wins; our object updates keep keys unique). -/
def jsLookup (o : List (String × α)) (k : String) : Option α :=
  match o with
  | [] => none
  | (k', v) :: rest => if k' = k then some v else jsLookup rest k

/-- Object update `o[k] = v` (also vue's `set(o, k, v)`): replaces the value
of an existing key in place, otherwise appends the new binding, matching
JavaScript property-insertion order semantics. -/
def jsSet (o : List (String × α)) (k : String) (v : α) : List (String × α) :=
  match o with
  | [] => [(k, v)]
  | (k', v') :: rest => if k' = k then (k, v) :: rest else (k', v') :: jsSet rest k v

/-- JavaScript truthiness of a `JSValue` (`0`, `""`, `undefined`, `NaN` are
falsy; arrays are always truthy). -/
def truthy : JSValue → Bool
  | .num q => q ≠ 0
  | .str s => s ≠ ""
  | .arr _ => true
  | .undefined => false
  | .nan => false

/-- Model of `a || b` on JS values: `a` when truthy, else `b`. -/
def jsOr (a b : JSValue) : JSValue := if truthy a then a else b

/-- One digit character. -/
def digitChar (n : ℕ) : Char := Char.ofNat (48 + n)

/-- Whitespace characters, as JavaScript `trim` treats the ones arising
here. -/
def isWsChar (c : Char) : Bool := c = ' ' || c = '\t' || c = '\n' || c = '\r'

/-- Drop leading whitespace from a character list. -/
def dropLeadWs : List Char → List Char
  | [] => []
  | c :: rest => if isWsChar c then dropLeadWs rest else c :: rest

/-- JavaScript `s.trim()`. -/
def jsTrim (s : String) : String :=
  String.mk (dropLeadWs ((dropLeadWs s.data.reverse).reverse))

/-- JavaScript `s.endsWith(t)`. -/
def strEndsWith (s t : String) : Bool :=
  t.data.reverse.isPrefixOf s.data.reverse

/-- JavaScript `s.startsWith(t)`. -/
def strStartsWith (s t : String) : Bool :=
  t.data.isPrefixOf s.data

/-- Worker for `splitOnChar`. -/
def splitOnCharAux (sep : Char) : List Char → List Char → List String
  | [], acc => [String.mk acc.reverse]
  | c :: rest, acc =>
    if c = sep then String.mk acc.reverse :: splitOnCharAux sep rest []
    else splitOnCharAux sep rest (c :: acc)

/-- JavaScript `s.split(sep)` for a one-character separator. -/
def splitOnChar (s : String) (sep : Char) : List String :=
  splitOnCharAux sep s.data []

/-- Fuelled Euclid's algorithm, mirroring `Nat.gcd` step for step but
structurally recursive on the fuel, so that concrete values evaluate by
plain reduction. -/
def gcdFuel : ℕ → ℕ → ℕ → ℕ
  | 0, _, b => b
  | _ + 1, 0, b => b
  | f + 1, a + 1, b => gcdFuel f (b % (a + 1)) (a + 1)

/-- With enough fuel, `gcdFuel` is `Nat.gcd`. -/
theorem gcdFuel_eq_gcd : ∀ (f a b : ℕ), a ≤ f → gcdFuel f a b = Nat.gcd a b := by
  intro f
  induction f with
  | zero =>
    intro a b h
    cases Nat.le_zero.mp h
    simp [gcdFuel]
  | succ f ih =>
    intro a b h
    cases a with
    | zero => simp [gcdFuel]
    | succ a' =>
      have hm : b % (a' + 1) < a' + 1 := Nat.mod_lt _ (Nat.succ_pos a')
      have hle : b % (a' + 1) ≤ f := by omega
      rw [gcdFuel, ih _ _ hle]
      exact (Nat.gcd_succ a' b).symm

/-- The exact rational `n / d` (`0` when `d = 0`), constructed directly in
reduced form from `Nat`/`Int` division — no `Rat` library arithmetic — so
that parsed numeric values evaluate by reduction. -/
def ratOfNumDen (n : ℤ) (d : ℕ) : ℚ :=
  if hd : d = 0 then 0
  else
    let g := gcdFuel n.natAbs n.natAbs d
    have hg : g = Nat.gcd n.natAbs d := gcdFuel_eq_gcd _ _ _ (le_refl _)
    have hdpos : 0 < d := Nat.pos_of_ne_zero hd
    have hgpos : 0 < Nat.gcd n.natAbs d := Nat.gcd_pos_of_pos_right _ hdpos
    { num := if n < 0 then -((n.natAbs / g : ℕ) : ℤ) else ((n.natAbs / g : ℕ) : ℤ)
      den := d / g
      den_nz := by
        rw [hg]
        exact Nat.ne_of_gt
          (Nat.div_pos (Nat.le_of_dvd hdpos (Nat.gcd_dvd_right _ _)) hgpos)
      reduced := by
        have hcop := Nat.coprime_div_gcd_div_gcd hgpos
        have habs : (if n < 0 then -((n.natAbs / g : ℕ) : ℤ)
            else ((n.natAbs / g : ℕ) : ℤ)).natAbs = n.natAbs / g := by
          split
          · exact (Int.natAbs_neg _).trans (Int.natAbs_ofNat _)
          · exact Int.natAbs_ofNat _
        rw [habs, hg]
        exact hcop }

/-- Fractional decimal digits of `rem / den` (fuelled; all numbers
arising in the animation core have short terminating decimal expansions,
matching the strings JavaScript prints for them). -/
def fracDigitsNat : ℕ → ℕ → ℕ → String
  | _, _, 0 => ""
  | rem, den, k + 1 =>
    if rem = 0 then ""
    else String.singleton (digitChar (rem * 10 / den)) ++ fracDigitsNat (rem * 10 % den) den k

/-- JavaScript `String(number)` for the numbers handled by the core
(e.g. `0 ↦ "0"`, `1/2 ↦ "0.5"`, `-5 ↦ "-5"`), computed from the reduced
numerator and denominator. -/
def jsNumToString (q : ℚ) : String :=
  (if q.num < 0 then "-" else "")
    ++ toString (q.num.natAbs / q.den)
    ++ (if q.num.natAbs % q.den = 0 then ""
        else "." ++ fracDigitsNat (q.num.natAbs % q.den) q.den 20)

/-- Numeric value of a digit list (most significant first). -/
def natOfDigits (ds : List Char) : ℕ :=
  ds.foldl (fun a c => a * 10 + (c.toNat - 48)) 0

/-- Core numeric scanner shared by the `parseFloat` and `Number` models:
optional sign, integer digits, optional `.` plus fraction digits; returns
the parsed rational and the unconsumed characters, or `none` when no digit
was read. -/
def parseFloatAux (cs : List Char) : Option (ℚ × List Char) :=
  let signRest : Bool × List Char :=
    match cs with
    | '-' :: rest => (true, rest)
    | '+' :: rest => (false, rest)
    | _ => (false, cs)
  let neg := signRest.1
  let afterSign := signRest.2
  let ipRest := afterSign.span Char.isDigit
  let ip := ipRest.1
  let fpRest : List Char × List Char :=
    match ipRest.2 with
    | '.' :: rest2 => rest2.span Char.isDigit
    | other => ([], other)
  let fp := fpRest.1
  let rest := if ipRest.2 = [] then [] else
    match ipRest.2 with
    | '.' :: _ => fpRest.2
    | other => other
  if ip = [] ∧ fp = [] then none
  else
    let mant : ℕ := natOfDigits ip * 10 ^ fp.length + natOfDigits fp
    some (ratOfNumDen (if neg then -(mant : ℤ) else (mant : ℤ)) (10 ^ fp.length), rest)

/-- JavaScript `parseFloat` on a string: parse the longest numeric lead of
the (whitespace-trimmed) string, `none` meaning `NaN`. -/
def jsParseFloatStr (s : String) : Option ℚ :=
  (parseFloatAux (jsTrim s).data).map (·.1)

/-- JavaScript `Number(s)`: the empty (or all-whitespace) string is `0`;
otherwise the whole string must be numeric, `none` meaning `NaN`. -/
def jsNumberFull (s : String) : Option ℚ :=
  let t := jsTrim s
  if t = "" then some 0
  else
    match parseFloatAux t.data with
    | some (q, []) => some q
    | _ => none

/-- JavaScript `parseFloat(v)` on an arbitrary value: the value is coerced
to a string first (`String(array)` joins with `","`, so only the first
element's text is read, the comma stopping the scan), then scanned. -/
def jsParseFloat : JSValue → JSValue
  | .num q => .num q
  | .str s =>
    match jsParseFloatStr s with
    | some q => .num q
    | none => .nan
  | .arr [] => .nan
  | .arr (v :: _) => jsParseFloat v
  | .undefined => .nan
  | .nan => .nan

/-- Model of `isFloat` (index.mjs line 29): `!isNaN(parseFloat(value))`. -/
def isFloat (v : JSValue) : Bool :=
  match jsParseFloat v with
  | .num _ => true
  | _ => false

/-! Part: Value types (`valueTypes`, index.mjs lines 203–288)

The value types themselves come from the external `style-value-types`
library.  The ones the transform/style serializers actually exercise are
modelled exactly from that library's documented behaviour: `px` and
`degrees` are unit types whose `transform` appends the unit, `number` and
`scale` transform a number to itself, `int` (defined in this repository)
rounds, `alpha` clamps to `[0,1]`.  The color / filter / percentage types
are only ever used through their *presence* in the table here, so their
transforms are modelled as the identity. -/

/-- The `style-value-types` value types referenced by the `valueTypes`
table, plus the repository's own `int` type. -/
inductive ValueType where
  | color
  | px
  | degrees
  | scaleType
  | alpha
  | progressPercentage
  | filter
  | int
  | numberType
  | complex
deriving DecidableEq, Repr

/-- Model of `type.transform` for a numeric input, when the type has a transform
(all of the modelled types do, matching `style-value-types`). -/
def ValueType.transformNum : ValueType → ℚ → JSValue
  | .px, q => .str (jsNumToString q ++ "px")
  | .degrees, q => .str (jsNumToString q ++ "deg")
  | .scaleType, q => .num q
  | .numberType, q => .num q
  | .alpha, q => .num (min 1 (max 0 q))
  | .progressPercentage, q => .str (jsNumToString (q * 100) ++ "%")
  | .int, q => .num (round q : ℤ)
  | .color, q => .num q
  | .filter, q => .num q
  | .complex, q => .num q

/-- Model of `valueTypes` / `getValueType` (index.mjs lines 207–279): the
property-name → value-type table. -/
def getValueType (key : String) : Option ValueType :=
  match key with
  | "color" => some .color
  | "backgroundColor" => some .color
  | "outlineColor" => some .color
  | "fill" => some .color
  | "stroke" => some .color
  | "borderColor" => some .color
  | "borderTopColor" => some .color
  | "borderRightColor" => some .color
  | "borderBottomColor" => some .color
  | "borderLeftColor" => some .color
  | "borderWidth" => some .px
  | "borderTopWidth" => some .px
  | "borderRightWidth" => some .px
  | "borderBottomWidth" => some .px
  | "borderLeftWidth" => some .px
  | "borderRadius" => some .px
  | "radius" => some .px
  | "borderTopLeftRadius" => some .px
  | "borderTopRightRadius" => some .px
  | "borderBottomRightRadius" => some .px
  | "borderBottomLeftRadius" => some .px
  | "width" => some .px
  | "maxWidth" => some .px
  | "height" => some .px
  | "maxHeight" => some .px
  | "size" => some .px
  | "top" => some .px
  | "right" => some .px
  | "bottom" => some .px
  | "left" => some .px
  | "padding" => some .px
  | "paddingTop" => some .px
  | "paddingRight" => some .px
  | "paddingBottom" => some .px
  | "paddingLeft" => some .px
  | "margin" => some .px
  | "marginTop" => some .px
  | "marginRight" => some .px
  | "marginBottom" => some .px
  | "marginLeft" => some .px
  | "rotate" => some .degrees
  | "rotateX" => some .degrees
  | "rotateY" => some .degrees
  | "rotateZ" => some .degrees
  | "scale" => some .scaleType
  | "scaleX" => some .scaleType
  | "scaleY" => some .scaleType
  | "scaleZ" => some .scaleType
  | "skew" => some .degrees
  | "skewX" => some .degrees
  | "skewY" => some .degrees
  | "distance" => some .px
  | "translateX" => some .px
  | "translateY" => some .px
  | "translateZ" => some .px
  | "x" => some .px
  | "y" => some .px
  | "z" => some .px
  | "perspective" => some .px
  | "transformPerspective" => some .px
  | "opacity" => some .alpha
  | "originX" => some .progressPercentage
  | "originY" => some .progressPercentage
  | "originZ" => some .px
  | "zIndex" => some .int
  | "filter" => some .filter
  | "WebkitFilter" => some .filter
  | "fillOpacity" => some .alpha
  | "strokeOpacity" => some .alpha
  | "numOctaves" => some .int
  | _ => none

/-- Model of `getValueAsType` (index.mjs lines 280–282):
`type && typeof value === "number" && type.transform ? type.transform(value) : value`. -/
def getValueAsType (value : JSValue) (type? : Option ValueType) : JSValue :=
  match type?, value with
  | some t, .num q => t.transformNum q
  | _, _ => value

/-! Part: MotionValue velocity bookkeeping (index.mjs lines 29–99)

The frame scheduler (`framesync`) is modelled by explicit frame records: a
`set` happens during a frame whose `getFrameData()` is the given record,
and a (post-render) `velocityCheck` happens at a frame's timestamp. -/

/-- One `framesync` frame datum `{ delta, timestamp }`. -/
structure Frame where
  delta : ℚ
  timestamp : ℚ
deriving Repr

/-- The velocity-relevant state of a `MotionValue` (fields from the
constructor, index.mjs lines 32–58). -/
structure MVel where
  current : JSValue
  prev : JSValue
  timeDelta : ℚ
  lastUpdated : ℚ
  canTrackVelocity : Bool
deriving Repr

/-- Model of `new MotionValue(init)`: `prev = current = init`,
`canTrackVelocity = isFloat(init)`, zeroed time bookkeeping. -/
def MVel.init (v : JSValue) : MVel :=
  { current := v, prev := v, timeDelta := 0, lastUpdated := 0,
    canTrackVelocity := isFloat v }

/-- Model of `updateAndNotify` (index.mjs lines 38–48), as run by `set(v)` during
frame `f`: advance `prev`/`current`, and refresh `timeDelta`/`lastUpdated`
only when the frame timestamp differs from the last update's. -/
def MVel.setAt (s : MVel) (f : Frame) (v : JSValue) : MVel :=
  let s := { s with prev := s.current, current := v }
  if s.lastUpdated ≠ f.timestamp then
    { s with timeDelta := f.delta, lastUpdated := f.timestamp }
  else s

/-- Model of `velocityCheck` (index.mjs lines 50–55), as run post-render at frame
`f`: latch `canTrackVelocity` once the current value is float-parseable,
and collapse the one-tick velocity sample when the frame has advanced. -/
def MVel.velocityCheck (s : MVel) (f : Frame) : MVel :=
  let s := if s.canTrackVelocity then s
           else { s with canTrackVelocity := isFloat s.current }
  if f.timestamp ≠ s.lastUpdated then { s with prev := s.current } else s

/-- popmotion's `velocityPerSecond(velocity, frameDuration)` (external
capability): `frameDuration ? velocity * (1000 / frameDuration) : 0`. -/
def velocityPerSecond (velocity frameDuration : ℚ) : ℚ :=
  if frameDuration ≠ 0 then velocity * (1000 / frameDuration) else 0

/-- Model of `getVelocity` (index.mjs lines 74–76):
`canTrackVelocity ? velocityPerSecond(parseFloat(current) - parseFloat(prev), timeDelta) : 0`.
A `NaN` operand makes the whole expression `NaN`. -/
def MVel.getVelocity (s : MVel) : JSValue :=
  if s.canTrackVelocity then
    match jsParseFloat s.current, jsParseFloat s.prev with
    | .num a, .num b => .num (velocityPerSecond (a - b) s.timeDelta)
    | _, _ => .nan
  else .num 0

/-- The scheduler-visible events touching a `MotionValue`'s velocity
state: a `set` during a frame, or a post-render `velocityCheck`. -/
inductive MVelEvent where
  | set (f : Frame) (v : JSValue)
  | check (f : Frame)
deriving Repr

/-- One event step. -/
def MVel.step (s : MVel) : MVelEvent → MVel
  | .set f v => s.setAt f v
  | .check f => s.velocityCheck f

/-- Run a sequence of events. -/
def MVel.run (s : MVel) (evs : List MVelEvent) : MVel :=
  evs.foldl MVel.step s

/-! Part: MotionValue animation slot and completion promise (index.mjs 77–98)

`start(animation)` first calls `stop()` (cancelling any in-flight
animation), then creates a fresh completion promise and installs the new
animation's stop handle; the promise resolves only when the animation's
own completion fires.  `stop()` cancels without resolving.  We model each
`start` as allocating a fresh animation id; a cancelled animation's
underlying engine never calls `resolve`, so a `complete` event only has an
effect on the currently installed animation. -/

/-- The animation slot of one `MotionValue`: the installed animation (the
`stopAnimation` handle), the set of completion promises that have
resolved, and a fresh-id counter. -/
structure AnimSlot where
  active : Option ℕ
  resolved : List ℕ
  nextId : ℕ
deriving Repr, DecidableEq

/-- A `MotionValue` starts with no installed animation. -/
def AnimSlot.fresh : AnimSlot := ⟨none, [], 0⟩

/-- Model of `stop()` (index.mjs 84–88): cancel the active animation (its engine
will never call `resolve`) and clear the handle; the pending promise is
neither resolved nor rejected. -/
def AnimSlot.stopA (s : AnimSlot) : AnimSlot :=
  { s with active := none }

/-- Model of `start(animation)` (index.mjs 77–83): `stop()` first, then install a
fresh animation (returning its id). -/
def AnimSlot.startA (s : AnimSlot) : AnimSlot × ℕ :=
  let s := s.stopA
  ({ s with active := some s.nextId, nextId := s.nextId + 1 }, s.nextId)

/-- The underlying animation `n` finishes and calls its `resolve`: this can
only happen while `n` is still installed (a cancelled popmotion animation
never completes); the promise then resolves and `clearAnimation` runs. -/
def AnimSlot.completeA (s : AnimSlot) (n : ℕ) : AnimSlot :=
  if s.active = some n then
    { s with active := none, resolved := n :: s.resolved }
  else s

/-- Events touching one `MotionValue`'s animation slot. -/
inductive SlotEvent where
  | start
  | stop
  | complete (n : ℕ)
deriving Repr

/-- One slot event step. -/
def AnimSlot.step (s : AnimSlot) : SlotEvent → AnimSlot
  | .start => (s.startA).1
  | .stop => s.stopA
  | .complete n => s.completeA n

/-- Run a sequence of slot events. -/
def AnimSlot.run (s : AnimSlot) (evs : List SlotEvent) : AnimSlot :=
  evs.foldl AnimSlot.step s

/-! Part: Transitions (index.mjs 143–201, 318–423) -/

/-- The values of a transition's `type` field that the core inspects:
the string tags `"spring"`, `"keyframes"`, `"inertia"`, `"decay"`, or the
literal `false`. -/
inductive TransType where
  | spring
  | keyframes
  | inertia
  | decay
  | falseType
deriving DecidableEq, Repr

/-- The flat fields of one (per-value) transition object.  Numeric spring
and tween parameters; `damping` lives in `ℝ` because the critically-damped
default computes `2 * Math.sqrt(550)`.  Callback fields are modelled by
their presence. -/
structure TransitionBase where
  typeF : Option TransType := none
  fromF : Option JSValue := none
  toF : Option JSValue := none
  immediate : Bool := false
  stiffness : Option ℚ := none
  damping : Option ℝ := none
  restDelta : Option ℚ := none
  restSpeed : Option ℚ := none
  ease : Option String := none
  duration : Option ℚ := none
  values : Option (List JSValue) := none
  delayF : Option ℚ := none
  velocityF : Option ℚ := none
  hasOnComplete : Bool := false
  hasOnUpdate : Bool := false

/-- A transition object as passed to `push`/`getAnimation`: its own flat
fields, plus optional per-property sub-transitions and a `default`
sub-transition (looked up by `getValueTransition`). -/
structure Transition where
  base : TransitionBase := {}
  perKey : List (String × TransitionBase) := []
  defaultT : Option TransitionBase := none

/-- Model of `getValueTransition(transition, key)` (index.mjs 377–379):
`transition[key] || transition.default || transition`. -/
def getValueTransition (t : Transition) (key : String) : TransitionBase :=
  match jsLookup t.perKey key with
  | some sub => sub
  | none =>
    match t.defaultT with
    | some d => d
    | none => t.base

/-- Model of `isKeyframesTarget` (index.mjs 143–145): `Array.isArray(v)`. -/
def isKeyframesTarget : JSValue → Bool
  | .arr _ => true
  | _ => false

/-- Model of `underDampedSpring` (index.mjs 146–152). -/
def underDampedSpring : TransitionBase :=
  { typeF := some .spring, stiffness := some 500, damping := some 25,
    restDelta := some (1/2), restSpeed := some 10 }

/-- Model of `criticallyDampedSpring(to)` (index.mjs 153–159): damping is
`2 * Math.sqrt(550)` exactly when the destination is the number `0`,
else `30`. -/
noncomputable def criticallyDampedSpring (dest : JSValue) : TransitionBase :=
  { typeF := some .spring, stiffness := some 550,
    damping := some (if isNumZero dest then 2 * Real.sqrt 550 else 30),
    restDelta := some (1/100), restSpeed := some 10 }

/-- Model of `overDampedSpring(to)` (index.mjs 160–166). -/
def overDampedSpring (dest : JSValue) : TransitionBase :=
  { typeF := some .spring, stiffness := some 550,
    damping := some (if isNumZero dest then 100 else 30),
    restDelta := some (1/100), restSpeed := some 10 }

/-- Model of `linearTween` (index.mjs 167–171). -/
def linearTween : TransitionBase :=
  { typeF := some .keyframes, ease := some "linear", duration := some 300 }

/-- Model of `keyframes(values)` (index.mjs 172–176). -/
def keyframesTransition (vs : List JSValue) : TransitionBase :=
  { typeF := some .keyframes, duration := some 800, values := some vs }

/-- Model of `defaultTransitions[valueKey] || defaultTransitions.default`
(index.mjs 177–192): the per-property default transition table. -/
noncomputable def defaultTransitionFor (valueKey : String) (dest : JSValue) : TransitionBase :=
  match valueKey with
  | "x" => underDampedSpring
  | "y" => underDampedSpring
  | "z" => underDampedSpring
  | "rotate" => underDampedSpring
  | "rotateX" => underDampedSpring
  | "rotateY" => underDampedSpring
  | "rotateZ" => underDampedSpring
  | "scaleX" => criticallyDampedSpring dest
  | "scaleY" => criticallyDampedSpring dest
  | "scale" => criticallyDampedSpring dest
  | "backgroundColor" => linearTween
  | "color" => linearTween
  | "opacity" => linearTween
  | _ => overDampedSpring dest

/-- Model of `getDefaultTransition(valueKey, to)` (index.mjs 193–201): keyframe
targets get the 800ms keyframes default, otherwise the per-property table
applies; the result carries `to` along (`{ to, ...factory(to) }`). -/
noncomputable def getDefaultTransition (valueKey : String) (dest : JSValue) : Transition :=
  let factory : TransitionBase :=
    if h : isKeyframesTarget dest then
      match dest, h with
      | .arr vs, _ => keyframesTransition vs
    else defaultTransitionFor valueKey dest
  { base := { factory with toF := some dest } }

/-! Part: Animatability and the AnimationEngine strategy choice
(index.mjs 318–326, 380–423)

`complex.test` and `getAnimatableNone` come from `style-value-types`; they
are capabilities and appear as explicit function parameters. -/

/-- Model of `isAnimatable(key, value)` (index.mjs 318–326): `zIndex` is never
animatable; numbers and arrays are; a string is animatable when it passes
the external `complex.test` grammar and does not start with `"url("`. -/
def isAnimatable (complexTest : String → Bool) (key : String) (value : JSValue) : Bool :=
  if key = "zIndex" then false
  else
    match value with
    | .num _ => true
    | .arr _ => true
    | .str s => complexTest s && !(strStartsWith s "url(")
    | _ => false

/-- The origin resolution of `getAnimation` (index.mjs 382–386): explicit
`transition.from` unless `null`/`undefined`, else the value's current
value; then the `"none"` origin of an animatable string target is replaced
by the property type's animatable-none synthesis (`getAnimatableNone`,
passed as the capability `gan`). -/
def resolveOrigin (gan : String → String → JSValue)
    (key : String) (currentValue : JSValue) (target : JSValue)
    (vt : TransitionBase) (complexTest : String → Bool) : JSValue :=
  let origin :=
    match vt.fromF with
    | none => currentValue
    | some f => f
  let isTargetAnimatable := isAnimatable complexTest key target
  match target with
  | .str ts => if isStrNone origin ∧ isTargetAnimatable then gan key ts else origin
  | _ => origin

/-- The two strategies `getAnimation` can return (index.mjs 422): the
immediate-set fallback `set`, or the engine-backed `start`. -/
inductive Strategy where
  | immediateSet
  | startAnim
deriving DecidableEq, Repr

/-- The strategy decision of `getAnimation` (index.mjs 380–423):
`!isOriginAnimatable || !isTargetAnimatable || valueTransition.type === false
 ? set : start`. -/
def getAnimationChoice (complexTest : String → Bool) (gan : String → String → JSValue)
    (key : String) (currentValue : JSValue) (target : JSValue)
    (transition : Transition) : Strategy :=
  let vt := getValueTransition transition key
  let isTargetAnimatable := isAnimatable complexTest key target
  let origin := resolveOrigin gan key currentValue target vt complexTest
  let isOriginAnimatable := isAnimatable complexTest key origin
  if !isOriginAnimatable || !isTargetAnimatable || vt.typeF = some .falseType then
    .immediateSet
  else .startAnim

/-- Observable effects of running the animation returned by
`getAnimation`.  The `set` strategy (index.mjs 411–421) writes the target,
fires `transition.onComplete` (when present), the caller-level
`onComplete`, and the per-call completion `complete`, all synchronously,
returns a no-op `stop`, and never calls the tween engine; the `start`
strategy hands the options to popmotion (`animate`/`inertia`), one engine
call, with completion pending on the engine. -/
structure AnimRunEffects where
  valueWritten : Option JSValue
  engineCalls : ℕ
  transitionOnCompleteFiredNow : Bool
  onCompleteFiredNow : Bool
  completeFiredNow : Bool
  stopIsNoop : Bool
deriving Repr

/-- Run the animation chosen by `getAnimation` and record its synchronous
effects (the caller supplied an `onComplete` and a `complete` callback,
as `apply`'s per-property promise does). -/
def runGetAnimation (complexTest : String → Bool) (gan : String → String → JSValue)
    (key : String) (currentValue : JSValue) (target : JSValue)
    (transition : Transition) : AnimRunEffects :=
  match getAnimationChoice complexTest gan key currentValue target transition with
  | .immediateSet =>
    { valueWritten := some target
      engineCalls := 0
      transitionOnCompleteFiredNow := transition.base.hasOnComplete
      onCompleteFiredNow := true
      completeFiredNow := true
      stopIsNoop := true }
  | .startAnim =>
    { valueWritten := none
      engineCalls := 1
      transitionOnCompleteFiredNow := false
      onCompleteFiredNow := false
      completeFiredNow := false
      stopIsNoop := false }

/-! Part: Variants and `useMotionControls` (index.mjs 440–500) -/

/-- One entry of a variant object: an animation target value, or the
`transition` sub-object (which in practice only ever sits under the
`"transition"` key). -/
inductive VEntry where
  | val (v : JSValue)
  | trans (t : Transition)

/-- A variant: a JavaScript object, i.e. an ordered list of entries. -/
def Variant := List (String × VEntry)

/-- Model of `variant.transition`: the transition sub-object of a variant, when the
`"transition"` key holds one. -/
def variantTransition (variant : Variant) : Option Transition :=
  match jsLookup variant "transition" with
  | some (.trans t) => some t
  | _ => none

/-- Model of `variant[key]` seen as an animation target value (`undefined` when the
key is absent or holds the transition object). -/
def variantValue (variant : Variant) (key : String) : JSValue :=
  match jsLookup variant key with
  | some (.val v) => v
  | _ => .undefined

/-- The keys `apply` animates (index.mjs 457–463): every entry of the
variant except the `"transition"` key (its mapped promise is `undefined`
and removed by `.filter(Boolean)`). -/
def applyAnimatedKeys (variant : Variant) : List String :=
  variant.filterMap (fun kv => if kv.1 = "transition" then none else some kv.1)

/-- The transition `apply` hands to `push` for one key (index.mjs 461):
`variant.transition || getDefaultTransition(key, variant[key])` (a
transition object is always truthy). -/
noncomputable def applyTransitionFor (variant : Variant) (key : String) : Transition :=
  match variantTransition variant with
  | some t => t
  | none => getDefaultTransition key (variantValue variant key)

/-- Model of `Promise.all` over the per-property completions collected by `apply`:
the aggregate has settled, given which per-property completions have
settled, exactly when every animated key's completion has. -/
def aggregateSettled (variant : Variant) (settled : String → Bool) : Bool :=
  (applyAnimatedKeys variant).all settled

/-- Model of `getVariantFromKey` (index.mjs 449–453): looking a variant name up in
the (possibly absent) variants table, throwing when it is missing. -/
def getVariantFromKey (variants : Option (List (String × Variant)))
    (name : String) : Except String Variant :=
  match variants with
  | none => .error ("The variant " ++ name ++ " does not exist.")
  | some vs =>
    match jsLookup vs name with
    | none => .error ("The variant " ++ name ++ " does not exist.")
    | some v => .ok v

/-- The synchronous head of `apply` (index.mjs 454–456): a string variant
name is resolved through `getVariantFromKey`, whose `throw` propagates to
the caller before any animation is started. -/
def applyResolveVariant (variants : Option (List (String × Variant))) :
    String ⊕ Variant → Except String Variant
  | .inl name => getVariantFromKey variants name
  | .inr v => .ok v

/-- What `leave(done)` does (index.mjs 475–489): either call `done`
immediately (no animation), or `apply` a variant and call `done` once its
aggregate completion settles. -/
inductive LeaveRun where
  | doneImmediately
  | applyThenDone (v : Variant)

/-- The effective leave variant of `leave` (index.mjs 476–482): the
subject's `leave` variant, else its `initial` variant, else nothing. -/
def leaveVariant (variants : Option (List (String × Variant))) : Option Variant :=
  match variants with
  | none => none
  | some vs =>
    match jsLookup vs "leave" with
    | some v => some v
    | none => jsLookup vs "initial"

/-- Model of `leave(done)` (index.mjs 475–489). -/
def leave (variants : Option (List (String × Variant))) : LeaveRun :=
  match leaveVariant variants with
  | none => .doneImmediately
  | some v => .applyThenDone v

/-- When `done` has fired, given which per-property completions have
settled: immediately in the no-variant case, and exactly at the applied
variant's aggregate completion otherwise (`await apply(leaveVariant);
done()`). -/
def leaveDoneFired (run : LeaveRun) (settled : String → Bool) : Bool :=
  match run with
  | .doneImmediately => true
  | .applyThenDone v => aggregateSettled v settled

/-! Part: `useMotionTransitions().push` (index.mjs 425–438)

The per-subject orchestration state: the value registry
(`useMotionValues`, index.mjs 104–141, whose `get` creates a
`MotionValue` wired to write back into the reactive property bag), the
property bag itself, and the per-call completion promises handed to
`push` by `apply` (modelled as tokens: each `push` call receives the next
token's `resolve`; a token can fire only while it is wired to a value's
installed animation). -/

/-- One registry entry: the motion value's current value, its animation
slot, and the completion token wired to the installed animation (if any). -/
structure MotionEntry where
  current : JSValue
  slot : AnimSlot
  activeToken : Option ℕ

/-- The orchestration state. `engineCalls` counts calls into the popmotion
tween engine (`animate`/`inertia`). -/
structure TransState where
  motionValues : List (String × MotionEntry)
  targetBag : List (String × JSValue)
  firedTokens : List ℕ
  nextToken : ℕ
  engineCalls : ℕ

/-- The state of a freshly created `useMotionTransitions()`. -/
def TransState.init (bag : List (String × JSValue)) : TransState :=
  { motionValues := [], targetBag := bag, firedTokens := [], nextToken := 0,
    engineCalls := 0 }

/-- Model of `get(key, from, target)` (index.mjs 125–134): the existing motion
value, or a fresh `MotionValue(from)`. -/
def TransState.getEntry (s : TransState) (key : String) (fromV : JSValue) : MotionEntry :=
  match jsLookup s.motionValues key with
  | some e => e
  | none => { current := fromV, slot := AnimSlot.fresh, activeToken := none }

/-- Model of `push(key, value, target, transition, onComplete)` (index.mjs
427–436).  `from = target[key]`; with `transition.immediate` the motion
value is set and `push` returns at once (the per-call completion token is
allocated by the surrounding promise but never wired); otherwise
`getAnimation` decides the strategy and `motionValue.start(animation)`
runs it: the immediate-set strategy completes (fires the token)
synchronously, the engine strategy installs a pending animation wired to
the token.  Setting a motion value also writes the property bag through
the `onChange` subscription installed by `get`. -/
def pushStep (complexTest : String → Bool) (gan : String → String → JSValue)
    (key : String) (value : JSValue) (transition : Transition)
    (s : TransState) : TransState :=
  let fromV := (jsLookup s.targetBag key).getD .undefined
  let e := s.getEntry key fromV
  let t := s.nextToken
  if transition.base.immediate then
    { s with
        motionValues := jsSet s.motionValues key { e with current := value }
        targetBag := jsSet s.targetBag key value
        nextToken := t + 1 }
  else
    match getAnimationChoice complexTest gan key e.current value transition with
    | .immediateSet =>
      let slotStarted := e.slot.startA
      { s with
          motionValues := jsSet s.motionValues key
            { current := value
              slot := slotStarted.1.completeA slotStarted.2
              activeToken := none }
          targetBag := jsSet s.targetBag key value
          firedTokens := t :: s.firedTokens
          nextToken := t + 1 }
    | .startAnim =>
      let slotStarted := e.slot.startA
      { s with
          motionValues := jsSet s.motionValues key
            { current := e.current
              slot := slotStarted.1
              activeToken := some t }
          firedTokens := s.firedTokens
          nextToken := t + 1
          engineCalls := s.engineCalls + 1 }

/-- The engine animation running on `key`'s motion value finishes: its
`onComplete` chain fires the wired completion token and the slot's
promise resolves. -/
def engineCompleteStep (key : String) (s : TransState) : TransState :=
  match jsLookup s.motionValues key with
  | none => s
  | some e =>
    match e.slot.active with
    | none => s
    | some n =>
      { s with
          motionValues := jsSet s.motionValues key
            { e with slot := e.slot.completeA n, activeToken := none }
          firedTokens :=
            match e.activeToken with
            | some tok => tok :: s.firedTokens
            | none => s.firedTokens }

/-- Orchestration events: a `push` call, or an engine completion. -/
inductive TransEvent where
  | push (key : String) (value : JSValue) (transition : Transition)
  | engineComplete (key : String)

/-- One orchestration event step. -/
def TransState.step (complexTest : String → Bool) (gan : String → String → JSValue)
    (s : TransState) : TransEvent → TransState
  | .push key value transition => pushStep complexTest gan key value transition s
  | .engineComplete key => engineCompleteStep key s

/-- Run a sequence of orchestration events. -/
def TransState.run (complexTest : String → Bool) (gan : String → String → JSValue)
    (s : TransState) (evs : List TransEvent) : TransState :=
  evs.foldl (TransState.step complexTest gan) s

/-! Part: Transform serialization and parsing (index.mjs 710–737, 782–874) -/

/-- Model of `translateAlias` (index.mjs 782–786). -/
def translateAlias (key : String) : Option String :=
  match key with
  | "x" => some "translateX"
  | "y" => some "translateY"
  | "z" => some "translateZ"
  | _ => none

mutual

/-- JavaScript string coercion of a value (template interpolation):
arrays join their elements with `","`. -/
def jsValueToString : JSValue → String
  | .num q => jsNumToString q
  | .str s => s
  | .arr vs => jsArrToString vs
  | .undefined => "undefined"
  | .nan => "NaN"

/-- Array elements joined with `","` (JavaScript `Array.prototype.toString`). -/
def jsArrToString : List JSValue → String
  | [] => ""
  | [v] => jsValueToString v
  | v :: rest => jsValueToString v ++ "," ++ jsArrToString rest

end

/-- Model of `px.transform` from `style-value-types`: the template `v + "px"`. -/
def pxTransform (v : JSValue) : String := jsValueToString v ++ "px"

/-- The one term of the serializer's entry loop (index.mjs 798–804):
empty for the x/y/z keys under hardware acceleration (they were folded
into `translate3d`), else `alias(value) `. -/
def serTerm (enableHardwareAcceleration : Bool) (kv : String × JSValue) : String :=
  if enableHardwareAcceleration && (kv.1 == "x" || kv.1 == "y" || kv.1 == "z") then ""
  else
    let valueType := getValueType kv.1
    let valueAsType := getValueAsType kv.2 valueType
    ((translateAlias kv.1).getD kv.1) ++ "(" ++ jsValueToString valueAsType ++ ") "

/-- The body of `reactiveTransform`'s watcher (index.mjs 790–807): the
transform string computed from the current state.  With hardware
acceleration, a truthy `x`, `y` or `z` folds all three into a leading
`translate3d` (absent axes default to `0`, serialized by `px.transform`),
the loop then skips the x/y/z keys, and when no axis was truthy a neutral
`translateZ(0px)` is appended; the final string is trimmed. -/
def serializeTransform (newVal : List (String × JSValue))
    (enableHardwareAcceleration : Bool) : String :=
  let xv := (jsLookup newVal "x").getD .undefined
  let yv := (jsLookup newVal "y").getD .undefined
  let zv := (jsLookup newVal "z").getD .undefined
  let startHW := enableHardwareAcceleration && (truthy xv || truthy yv || truthy zv)
  let result₀ : String :=
    if startHW then
      let str := String.intercalate ","
        ([jsOr xv (.num 0), jsOr yv (.num 0), jsOr zv (.num 0)].map pxTransform)
      "translate3d(" ++ str ++ ") "
    else ""
  let hasHardwareAcceleration := startHW
  let result₁ := newVal.foldl (fun acc kv => acc ++ serTerm enableHardwareAcceleration kv) result₀
  let result₂ :=
    if enableHardwareAcceleration && !hasHardwareAcceleration then
      result₁ ++ "translateZ(0px) "
    else result₁
  jsTrim result₂

/-- Model of `transform.trim().split(/\) |\)/)` (index.mjs 819): split on a close
paren followed by a space, or a bare close paren. -/
def splitParenAux : List Char → List Char → List String
  | [], acc => [String.mk acc.reverse]
  | ')' :: ' ' :: rest, acc => String.mk acc.reverse :: splitParenAux rest []
  | ')' :: rest, acc => String.mk acc.reverse :: splitParenAux rest []
  | c :: rest, acc => splitParenAux rest (c :: acc)

/-- The split of `parseTransform`. -/
def splitParen (s : String) : List String := splitParenAux s.toList []

/-- Worker for `removeFirstParen`. -/
def removeFirstParenAux : List Char → List Char
  | [] => []
  | ')' :: rest => rest
  | c :: rest => c :: removeFirstParenAux rest

/-- JavaScript `str.replace(")", "")`: remove the first `)` only. -/
def removeFirstParen (s : String) : String :=
  String.mk (removeFirstParenAux s.data)

/-- Model of `parseValues` (index.mjs 822–828): `px`/`deg` suffixed strings are
`parseFloat`ed; otherwise a string that fails `Number` gives `NaN` (the
source's inverted guard returns `Number(value)` exactly when it is `NaN`),
and a numeric-looking string is returned *as the string itself*. -/
def parseValues (value : String) : JSValue :=
  if strEndsWith value "px" || strEndsWith value "deg" then
    match jsParseFloatStr value with
    | some q => .num q
    | none => .nan
  else
    match jsNumberFull value with
    | none => .nan
    | some _ => .str value

/-- Model of `parseTransform` (index.mjs 818–843).  `none` models the `TypeError`
thrown when a piece has no `(` (destructuring leaves `transformValue`
`undefined`).  Entries accumulate into an object (`{...acc, [name]:
value}`), single captured arguments staying scalar and multiple ones
forming an array. -/
def parseTransform (transform : String) : Option (List (String × JSValue)) :=
  let transforms := splitParen (jsTrim transform)
  if transforms.length = 1 then some []
  else
    transforms.foldlM
      (fun acc t2 =>
        if t2 = "" then some acc
        else
          match splitOnChar t2 '(' with
          | name :: transformValue :: _ =>
            let valueArray := splitOnChar transformValue ','
            let values := valueArray.map fun val =>
              parseValues (if strEndsWith val ")" then removeFirstParen val else jsTrim val)
            let value := match values with
              | [v] => v
              | _ => .arr values
            some (jsSet acc name value)
          | _ => none)
      []

/-- Model of `stateFromTransform` (index.mjs 844–874).  Every parsed entry's value
is first coerced by `parseFloat` — an array collapses to its first
element — before the `translate3d` branch looks at it, so a `translate3d`
whose first axis is nonzero reaches `value.forEach` with a plain number
and throws a `TypeError` (modelled by `none`); a `translate3d` whose
first axis is `0` zeroes all three axes. -/
def stateFromTransform (state : List (String × JSValue)) (transform : String) :
    Option (List (String × JSValue)) :=
  match parseTransform transform with
  | none => none
  | some entries =>
    entries.foldlM
      (fun st kv =>
        let value := jsParseFloat kv.2
        if kv.1 = "translate3d" then
          if isNumZero value then
            some (jsSet (jsSet (jsSet st "x" (.num 0)) "y" (.num 0)) "z" (.num 0))
          else none
        else if kv.1 = "translateX" then some (jsSet st "x" value)
        else if kv.1 = "translateY" then some (jsSet st "y" value)
        else if kv.1 = "translateZ" then some (jsSet st "z" value)
        else some (jsSet st kv.1 value))
      state

/-- The operation names of a serialized transform string, in order of
appearance (terms are space-separated `name(args)` groups). -/
def transformTermNames (s : String) : List String :=
  (splitOnChar s ' ').filterMap fun t =>
    if t = "" then none
    else (splitOnChar t '(').head?

/-- The canonical operation rank asserted by the specification:
perspective, then translate, then scale, then rotate, then skew (each
covering its axis variants, with x/y/z counting as translations). -/
def canonicalRank (name : String) : Option ℕ :=
  if name = "perspective" ∨ name = "transformPerspective" then some 0
  else if strStartsWith name "translate" ∨ name = "x" ∨ name = "y" ∨ name = "z" then some 1
  else if strStartsWith name "scale" then some 2
  else if strStartsWith name "rotate" then some 3
  else if strStartsWith name "skew" then some 4
  else none

/-- Nondecreasing check on a rank list. -/
def ranksSorted : List ℕ → Bool
  | [] => true
  | [_] => true
  | a :: b :: rest => a ≤ b && ranksSorted (b :: rest)

/-- Whether a serialized transform string lists its operations in the
canonical fixed order. -/
def claimCanonicalOrder (s : String) : Bool :=
  ranksSorted ((transformTermNames s).filterMap canonicalRank)

/-! Part: Helper lemmas -/

/-- Lookup after object update. -/
theorem jsLookup_jsSet (o : List (String × α)) (k : String) (v : α) (k' : String) :
    jsLookup (jsSet o k v) k' = if k = k' then some v else jsLookup o k' := by
  induction o with
  | nil =>
    by_cases h : k = k' <;> simp [jsSet, jsLookup, h]
  | cons kv rest ih =>
    obtain ⟨k₀, v₀⟩ := kv
    by_cases h0 : k₀ = k
    · subst h0
      by_cases h : k₀ = k' <;> simp [jsSet, jsLookup, h]
    · by_cases h : k₀ = k'
      · subst h
        have hkk : ¬ k = k₀ := fun hh => h0 hh.symm
        simp [jsSet, jsLookup, h0, hkk, ih]
      · simp [jsSet, jsLookup, h0, h, ih]

/-! Part: C1: `apply` aggregates per-property completions, excluding `transition` -/

/-- Claim C1. For every variant, the `transition` key is never among the
animated keys of `apply`; the aggregate completion (`Promise.all` over the
per-property completions) has settled exactly when every animated key's
completion has settled; settledness depends only on *which* completions
arrived, not their order; and an empty animated-key set (e.g. an empty
variant) is settled immediately, with no completion at all. -/
theorem apply_aggregate_spec :
    (∀ variant : Variant, "transition" ∉ applyAnimatedKeys variant)
    ∧ (∀ (variant : Variant) (settled : String → Bool),
        aggregateSettled variant settled = true ↔
          ∀ k ∈ applyAnimatedKeys variant, settled k = true)
    ∧ (∀ (variant : Variant) (arrived arrived' : List String),
        arrived.Perm arrived' →
        aggregateSettled variant (fun k => decide (k ∈ arrived)) =
          aggregateSettled variant (fun k => decide (k ∈ arrived')))
    ∧ (∀ variant : Variant, applyAnimatedKeys variant = [] →
        aggregateSettled variant (fun _ => false) = true) := by
  refine ⟨?_, ?_, ?_, ?_⟩
  · intro variant h
    simp only [applyAnimatedKeys, List.mem_filterMap] at h
    obtain ⟨kv, _, hkv⟩ := h
    by_cases hk : kv.1 = "transition"
    · simp [hk] at hkv
    · simp [hk] at hkv
  · intro variant settled
    simp [aggregateSettled, List.all_eq_true]
  · intro variant arrived arrived' hperm
    have hfun : (fun k => decide (k ∈ arrived)) = (fun k => decide (k ∈ arrived')) := by
      funext k
      simp [hperm.mem_iff]
    rw [hfun]
  · intro variant h
    simp [aggregateSettled, h]

/-- Witness for C1 on the variant `{opacity: 1, scale: 1, transition: {}}`
(aggregate settled once both completions arrived, in either order) and on
a variant with no animatable entries (settled immediately). -/
theorem apply_aggregate_spec_witness :
    List.Perm ["scale", "opacity"] ["opacity", "scale"]
    ∧ aggregateSettled
        [("opacity", .val (.num 1)), ("scale", .val (.num 1)), ("transition", .trans {})]
        (fun k => decide (k ∈ ["scale", "opacity"])) =
      aggregateSettled
        [("opacity", .val (.num 1)), ("scale", .val (.num 1)), ("transition", .trans {})]
        (fun k => decide (k ∈ ["opacity", "scale"]))
    ∧ applyAnimatedKeys ([("transition", .trans {})] : Variant) = []
    ∧ aggregateSettled [("transition", .trans {})] (fun _ => false) = true :=
  ⟨List.Perm.swap "opacity" "scale" [],
   apply_aggregate_spec.2.2.1 _ _ _ (List.Perm.swap "opacity" "scale" []),
   rfl,
   apply_aggregate_spec.2.2.2 _ rfl⟩

/-! Part: C3: non-animatable sides or `type: false` force the immediate-set
strategy -/

/-- Claim C3. Whenever the resolved origin or the target is not animatable
(a number or array is animatable; a string is animatable only when it
passes the complex-value grammar and does not start with `url(`; nothing
is animatable for `zIndex`), or the per-value transition's `type` is the
literal `false`, `getAnimation` picks the immediate-set strategy: the
target is written directly, the user (`transition.onComplete`), caller
(`onComplete`) and per-call (`complete`) callbacks fire synchronously, a
no-op cancel handle is returned, and the tween engine is never called. -/
theorem getAnimation_immediate_set_spec
    (complexTest : String → Bool) (gan : String → String → JSValue)
    (key : String) (currentValue target : JSValue) (transition : Transition)
    (h : isAnimatable complexTest key
          (resolveOrigin gan key currentValue target
            (getValueTransition transition key) complexTest) = false
        ∨ isAnimatable complexTest key target = false
        ∨ (getValueTransition transition key).typeF = some .falseType) :
    getAnimationChoice complexTest gan key currentValue target transition = .immediateSet
    ∧ runGetAnimation complexTest gan key currentValue target transition =
        { valueWritten := some target
          engineCalls := 0
          transitionOnCompleteFiredNow := transition.base.hasOnComplete
          onCompleteFiredNow := true
          completeFiredNow := true
          stopIsNoop := true } := by
  have hchoice :
      getAnimationChoice complexTest gan key currentValue target transition = .immediateSet := by
    unfold getAnimationChoice
    rcases h with h | h | h
    · simp [h]
    · simp [h]
    · simp [h]
  refine ⟨hchoice, ?_⟩
  unfold runGetAnimation
  rw [hchoice]

/-- Witness for C3: animating `width` toward the non-animatable string
`"auto"` (under a complex-value test rejecting it) resolves through the
immediate-set strategy with no engine call. -/
theorem getAnimation_immediate_set_spec_witness :
    isAnimatable (fun _ => false) "width" (.str "auto") = false
    ∧ getAnimationChoice (fun _ => false) (fun _ _ => .undefined)
        "width" (.num 0) (.str "auto") {} = .immediateSet
    ∧ (runGetAnimation (fun _ => false) (fun _ _ => .undefined)
        "width" (.num 0) (.str "auto") {}).engineCalls = 0 :=
  ⟨rfl,
   (getAnimation_immediate_set_spec (fun _ => false) (fun _ _ => .undefined)
      "width" (.num 0) (.str "auto") {} (Or.inr (Or.inl rfl))).1,
   by
    rw [(getAnimation_immediate_set_spec (fun _ => false) (fun _ _ => .undefined)
      "width" (.num 0) (.str "auto") {} (Or.inr (Or.inl rfl))).2]⟩

/-! Part: C4: default transitions for `{opacity: 1, scale: 1}` -/

/-- Claim C4. Applying `{opacity: 1, scale: 1}` with no user transition hands
`push` the table defaults: opacity gets the 300ms `linear` keyframes
tween, scale gets the critically-damped spring with stiffness 550 and
damping 30 (the non-zero-destination branch; destination `0` would give
`2 * Math.sqrt(550)`). -/
theorem apply_default_transition_spec :
    applyTransitionFor [("opacity", .val (.num 1)), ("scale", .val (.num 1))] "opacity" =
      getDefaultTransition "opacity" (.num 1)
    ∧ applyTransitionFor [("opacity", .val (.num 1)), ("scale", .val (.num 1))] "scale" =
      getDefaultTransition "scale" (.num 1)
    ∧ (getDefaultTransition "opacity" (.num 1)).base.typeF = some .keyframes
    ∧ (getDefaultTransition "opacity" (.num 1)).base.ease = some "linear"
    ∧ (getDefaultTransition "opacity" (.num 1)).base.duration = some 300
    ∧ (getDefaultTransition "opacity" (.num 1)).base.toF = some (.num 1)
    ∧ (getDefaultTransition "scale" (.num 1)).base.typeF = some .spring
    ∧ (getDefaultTransition "scale" (.num 1)).base.stiffness = some 550
    ∧ (getDefaultTransition "scale" (.num 1)).base.damping = some 30
    ∧ (getDefaultTransition "scale" (.num 1)).base.restDelta = some (1/100)
    ∧ (getDefaultTransition "scale" (.num 1)).base.restSpeed = some 10
    ∧ (getDefaultTransition "scale" (.num 1)).base.toF = some (.num 1)
    ∧ (getDefaultTransition "scale" (.num 0)).base.damping = some (2 * Real.sqrt 550) := by
  refine ⟨rfl, rfl, rfl, rfl, rfl, rfl, rfl, rfl, ?_, rfl, rfl, rfl, ?_⟩
  · simp [getDefaultTransition, defaultTransitionFor, criticallyDampedSpring,
      isKeyframesTarget, isNumZero]
  · simp [getDefaultTransition, defaultTransitionFor, criticallyDampedSpring,
      isKeyframesTarget, isNumZero]

/-! Part: C5: unknown variant names fail synchronously -/

/-- Claim C5. Applying a string variant name that is not in the subject's
variants table raises the lookup error synchronously (before any
animation work), never silently no-opping. -/
theorem apply_unknown_variant_throws
    (variants : Option (List (String × Variant))) (name : String)
    (h : ∀ vs, variants = some vs → jsLookup vs name = none) :
    applyResolveVariant variants (.inl name) =
      .error ("The variant " ++ name ++ " does not exist.") := by
  cases variants with
  | none => rfl
  | some vs =>
    simp [applyResolveVariant, getVariantFromKey, h vs rfl]

/-- Witness for C5: a table holding only `enter` rejects the name
`missing` with the source's error message. -/
theorem apply_unknown_variant_throws_witness :
    jsLookup [("enter", ([("opacity", VEntry.val (.num 1))] : Variant))] "missing" = none
    ∧ applyResolveVariant (some [("enter", [("opacity", VEntry.val (.num 1))])]) (.inl "missing") =
      .error "The variant missing does not exist." :=
  ⟨rfl, apply_unknown_variant_throws _ _ (fun vs h => by cases h; rfl)⟩

/-! Part: C6: leave-variant resolution and completion timing -/

/-- Claim C6. `leave(done)` uses the subject's `leave` variant when defined,
else its `initial` variant; with neither (or no table) `done` runs
immediately with no animation; and in the animated case `done` has fired
exactly when the applied variant's aggregate completion has settled. -/
theorem leave_resolution_spec :
    (∀ (vs : List (String × Variant)) (v : Variant),
        jsLookup vs "leave" = some v → leave (some vs) = .applyThenDone v)
    ∧ (∀ (vs : List (String × Variant)) (v : Variant),
        jsLookup vs "leave" = none → jsLookup vs "initial" = some v →
        leave (some vs) = .applyThenDone v)
    ∧ (∀ vs : List (String × Variant),
        jsLookup vs "leave" = none → jsLookup vs "initial" = none →
        leave (some vs) = .doneImmediately)
    ∧ leave none = .doneImmediately
    ∧ (∀ settled, leaveDoneFired .doneImmediately settled = true)
    ∧ (∀ v settled,
        leaveDoneFired (.applyThenDone v) settled = aggregateSettled v settled) := by
  refine ⟨?_, ?_, ?_, rfl, fun _ => rfl, fun _ _ => rfl⟩
  · intro vs v h
    simp [leave, leaveVariant, h]
  · intro vs v h1 h2
    simp [leave, leaveVariant, h1, h2]
  · intro vs h1 h2
    simp [leave, leaveVariant, h1, h2]

/-- Witness for C6 (the specification's example): with variants
`{initial: {opacity: 0}, enter: {opacity: 1}}` and no explicit `leave`,
the `initial` variant is the leave target. -/
theorem leave_resolution_spec_witness :
    jsLookup [("initial", ([("opacity", .val (.num 0))] : Variant)),
        ("enter", [("opacity", .val (.num 1))])] "leave" = none
    ∧ leave (some [("initial", [("opacity", .val (.num 0))]),
        ("enter", [("opacity", .val (.num 1))])]) =
      .applyThenDone [("opacity", .val (.num 0))] :=
  ⟨rfl,
   leave_resolution_spec.2.1 _ _ rfl rfl⟩

/-! Part: C2: starting a new animation cancels the prior one -/

/-- Step preservation: a promise that has not resolved, whose animation
is not installed, and whose id is stale (below the fresh counter) can
never resolve. -/
theorem AnimSlot.cancelled_step (s : AnimSlot) (ev : SlotEvent) (a : ℕ)
    (h1 : a ∉ s.resolved) (h2 : s.active ≠ some a) (h3 : a < s.nextId) :
    a ∉ (s.step ev).resolved ∧ (s.step ev).active ≠ some a ∧ a < (s.step ev).nextId := by
  cases ev with
  | start =>
    refine ⟨h1, ?_, Nat.lt_succ_of_lt h3⟩
    simp only [AnimSlot.step, AnimSlot.startA, AnimSlot.stopA]
    intro hcontra
    have : s.nextId = a := by simpa using hcontra
    omega
  | stop =>
    exact ⟨h1, by simp [AnimSlot.step, AnimSlot.stopA], h3⟩
  | complete n =>
    simp only [AnimSlot.step, AnimSlot.completeA]
    by_cases hn : s.active = some n
    · simp only [hn, if_pos rfl]
      refine ⟨?_, by simp, h3⟩
      intro hmem
      rcases List.mem_cons.mp hmem with h | h
      · exact h2 (h ▸ hn)
      · exact h1 h
    · simp only [if_neg hn]
      exact ⟨h1, h2, h3⟩

/-- Run preservation of `AnimSlot.cancelled_step` over any event list. -/
theorem AnimSlot.cancelled_run (evs : List SlotEvent) : ∀ (s : AnimSlot) (a : ℕ),
    a ∉ s.resolved → s.active ≠ some a → a < s.nextId →
    a ∉ (s.run evs).resolved := by
  induction evs with
  | nil => intro s a h1 _ _; exact h1
  | cons ev rest ih =>
    intro s a h1 h2 h3
    obtain ⟨g1, g2, g3⟩ := s.cancelled_step ev a h1 h2 h3
    exact ih (s.step ev) a g1 g2 g3

/-- Invariant of reachable slots: every resolved id and the installed id
are below the fresh counter. -/
theorem AnimSlot.bound_run (evs : List SlotEvent) : ∀ s : AnimSlot,
    (∀ n ∈ s.resolved, n < s.nextId) → (∀ m, s.active = some m → m < s.nextId) →
    (∀ n ∈ (s.run evs).resolved, n < (s.run evs).nextId)
      ∧ (∀ m, (s.run evs).active = some m → m < (s.run evs).nextId) := by
  induction evs with
  | nil => intro s h1 h2; exact ⟨h1, h2⟩
  | cons ev rest ih =>
    intro s h1 h2
    refine ih (s.step ev) ?_ ?_
    · cases ev with
      | start =>
        intro n hn
        exact Nat.lt_succ_of_lt (h1 n hn)
      | stop => exact h1
      | complete k =>
        simp only [AnimSlot.step, AnimSlot.completeA]
        by_cases hk : s.active = some k
        · simp only [hk, if_pos rfl]
          intro n hn
          rcases List.mem_cons.mp hn with h | h
          · exact h ▸ h2 k hk
          · exact h1 n h
        · simp only [if_neg hk]; exact h1
    · cases ev with
      | start =>
        intro m hm
        simp only [AnimSlot.step, AnimSlot.startA, AnimSlot.stopA] at hm ⊢
        have : s.nextId = m := by simpa using hm
        omega
      | stop =>
        intro m hm
        simp [AnimSlot.step, AnimSlot.stopA] at hm
      | complete k =>
        simp only [AnimSlot.step, AnimSlot.completeA]
        by_cases hk : s.active = some k
        · simp only [hk, if_pos rfl]
          intro m hm
          simp at hm
        · simp only [if_neg hk]; exact h2

/-- Claim C2. From any reachable animation-slot state, starting a second
animation (`b`) while a first (`a`) is in flight cancels the first: `a`'s
completion promise never resolves no matter what happens afterwards,
while `b`'s resolves as soon as `b`'s own completion fires; and `stop()`
cancels the installed animation without resolving (or rejecting) any
pending completion. -/
theorem motionValue_start_cancels_prior (pre post : List SlotEvent) :
    (((AnimSlot.run AnimSlot.fresh pre).startA.1.startA.1.run post).resolved.contains
        (AnimSlot.run AnimSlot.fresh pre).startA.2 = false)
    ∧ (AnimSlot.run AnimSlot.fresh pre).startA.1.startA.2 ∈
        ((AnimSlot.run AnimSlot.fresh pre).startA.1.startA.1.completeA
          (AnimSlot.run AnimSlot.fresh pre).startA.1.startA.2).resolved
    ∧ (∀ q : AnimSlot, q.stopA.resolved = q.resolved ∧ q.stopA.active = none) := by
  have hbound := AnimSlot.bound_run pre AnimSlot.fresh
    (by intro n hn; simp [AnimSlot.fresh] at hn)
    (by intro m hm; simp [AnimSlot.fresh] at hm)
  refine ⟨?_, ?_, fun q => ⟨rfl, rfl⟩⟩
  · set s := AnimSlot.run AnimSlot.fresh pre with hs
    have h1 : s.nextId ∉ s.resolved := fun hmem =>
      Nat.lt_irrefl s.nextId (hbound.1 s.nextId hmem)
    have hnot : s.nextId ∉ (s.startA.1.startA.1.run post).resolved := by
      refine AnimSlot.cancelled_run post s.startA.1.startA.1 s.nextId h1 ?_ ?_
      · simp only [AnimSlot.startA, AnimSlot.stopA]
        intro hcontra
        have : s.nextId + 1 = s.nextId := by simp at hcontra
        omega
      · simp only [AnimSlot.startA, AnimSlot.stopA]
        omega
    simpa [List.contains_iff_exists_mem_beq] using
      fun hmem => hnot (by simpa using hmem)
  · simp [AnimSlot.startA, AnimSlot.stopA, AnimSlot.completeA]

/-! Part: C9: velocity -/

/-- Claim C9. `getVelocity()` returns `0` whenever `canTrackVelocity` is
false; a freshly created value reports velocity `0`; a value that never
holds a float-parseable value keeps `canTrackVelocity` false and reports
`0` forever; and after two `set` calls during frames with distinct
timestamps, the velocity is
`velocityPerSecond(current − previous, timeDelta)`, i.e. with the second
frame's delta spanning the two timestamps, `(b − a) · 1000/(t1 − t0)`
per second. -/
theorem motionValue_velocity_spec :
    (∀ s : MVel, s.canTrackVelocity = false → s.getVelocity = .num 0)
    ∧ (∀ init : JSValue, (MVel.init init).getVelocity = .num 0)
    ∧ (∀ (init : JSValue) (evs : List MVelEvent),
        isFloat init = false →
        (∀ f v, MVelEvent.set f v ∈ evs → isFloat v = false) →
        ((MVel.init init).run evs).canTrackVelocity = false
          ∧ ((MVel.init init).run evs).getVelocity = .num 0)
    ∧ (∀ (v0 a b t0 δ0 t1 δ1 : ℚ), t0 ≠ 0 → t1 ≠ t0 →
        ((MVel.init (.num v0)).run
            [.set ⟨δ0, t0⟩ (.num a), .set ⟨δ1, t1⟩ (.num b)]).getVelocity =
          .num (velocityPerSecond (b - a) δ1))
    ∧ (∀ (v0 a b t0 t1 : ℚ), t0 ≠ 0 → t1 ≠ t0 →
        ((MVel.init (.num v0)).run
            [.set ⟨t0, t0⟩ (.num a), .set ⟨t1 - t0, t1⟩ (.num b)]).getVelocity =
          .num ((b - a) * (1000 / (t1 - t0)))) := by
  have hzero : ∀ s : MVel, s.canTrackVelocity = false → s.getVelocity = .num 0 := by
    intro s h
    simp [MVel.getVelocity, h]
  have hrun_nonfloat : ∀ (evs : List MVelEvent) (s : MVel),
      isFloat s.current = false → s.canTrackVelocity = false →
      (∀ f v, MVelEvent.set f v ∈ evs → isFloat v = false) →
      isFloat (s.run evs).current = false ∧ (s.run evs).canTrackVelocity = false := by
    intro evs
    induction evs with
    | nil => intro s h1 h2 _; exact ⟨h1, h2⟩
    | cons ev rest ih =>
      intro s h1 h2 hall
      have hstep : isFloat (s.step ev).current = false
          ∧ (s.step ev).canTrackVelocity = false := by
        cases ev with
        | set f v =>
          have hv : isFloat v = false := hall f v (List.mem_cons_self _ _)
          constructor
          · simp only [MVel.step, MVel.setAt]
            split <;> simpa using hv
          · simp only [MVel.step, MVel.setAt]
            split <;> simpa using h2
        | check f =>
          constructor <;>
            (simp only [MVel.step, MVel.velocityCheck]
             split <;> split <;> simp_all)
      exact ih (s.step ev) hstep.1 hstep.2
        (fun f v hm => hall f v (List.mem_cons_of_mem _ hm))
  refine ⟨hzero, ?_, ?_, ?_, ?_⟩
  · intro init
    by_cases h : isFloat init = true
    · have hp : ∃ q, jsParseFloat init = .num q := by
        unfold isFloat at h
        cases hparse : jsParseFloat init <;> simp [hparse] at h ⊢
      obtain ⟨q, hq⟩ := hp
      simp [MVel.getVelocity, MVel.init, isFloat, hq, velocityPerSecond]
    · have h' : isFloat init = false := by simpa using h
      exact hzero _ (by simp [MVel.init, h'])
  · intro init evs h1 h2
    have := hrun_nonfloat evs (MVel.init init) (by simpa [MVel.init] using h1)
      (by simp [MVel.init, h1]) h2
    exact ⟨this.2, hzero _ this.2⟩
  · intro v0 a b t0 δ0 t1 δ1 h0 h1
    have e0 : (0 : ℚ) ≠ t0 := fun h => h0 h.symm
    have e1 : t0 ≠ t1 := fun h => h1 h.symm
    simp [MVel.run, MVel.step, MVel.setAt, MVel.init, MVel.getVelocity, isFloat,
      jsParseFloat, e0, e1]
  · intro v0 a b t0 t1 h0 h1
    have e0 : (0 : ℚ) ≠ t0 := fun h => h0 h.symm
    have e1 : t0 ≠ t1 := fun h => h1 h.symm
    have ht : t1 - t0 ≠ 0 := sub_ne_zero.mpr h1
    simp [MVel.run, MVel.step, MVel.setAt, MVel.init, MVel.getVelocity, isFloat,
      jsParseFloat, e0, e1, velocityPerSecond, ht]

/-- Witness for C9: starting at `0`, setting `1` at timestamp 16 and `3`
at timestamp 32 (frame delta 16ms) reports `(3−1)·1000/16 = 125` units
per second. -/
theorem motionValue_velocity_spec_witness :
    (16 : ℚ) ≠ 0 ∧ (32 : ℚ) ≠ 16
    ∧ ((MVel.init (.num 0)).run
        [.set ⟨16, 16⟩ (.num 1), .set ⟨32 - 16, 32⟩ (.num 3)]).getVelocity =
      .num ((3 - 1) * (1000 / (32 - 16)))
    ∧ JSValue.num ((3 - 1 : ℚ) * (1000 / (32 - 16))) = .num 125 :=
  ⟨by norm_num, by norm_num,
   motionValue_velocity_spec.2.2.2.2 0 1 3 16 32 (by norm_num) (by norm_num),
   congrArg JSValue.num (by norm_num)⟩

/-! Part: C7: the serialize/parse transform round trip -/

/-- Claim C7, failing input. Serializing the state `{y: 5}` (hardware
acceleration enabled, the serializer's default) yields
`translate3d(0px,5px,0px)`; feeding that back through
`parseTransform`/`stateFromTransform` recovers `y = 0`, not `5` (the
premature `parseFloat` collapses the parsed axis array to its first
element, `0`, selecting the zero-`translate3d` branch), and the state
`{x: 10}` makes `stateFromTransform` throw a `TypeError` (`value.forEach`
on a number).  With hardware acceleration disabled the round trip does
recover the fields, confirming the parser inversion is the intent. -/
theorem transform_roundtrip_failing_input :
    serializeTransform [("y", JSValue.num 5)] true = "translate3d(0px,5px,0px)"
    ∧ stateFromTransform [] (serializeTransform [("y", JSValue.num 5)] true) =
        some [("x", .num 0), ("y", .num 0), ("z", .num 0)]
    ∧ jsLookup [("x", JSValue.num 0), ("y", JSValue.num 0), ("z", JSValue.num 0)] "y" =
        some (.num 0)
    ∧ stateFromTransform [] (serializeTransform [("x", JSValue.num 10)] true) = none
    ∧ stateFromTransform []
        (serializeTransform [("x", JSValue.num 10), ("rotate", JSValue.num 5)] false) =
      some [("x", .num 10), ("rotate", .num 5)] := by
  exact ⟨rfl, rfl, rfl, rfl, rfl⟩

/-! Part: C8: serialization order -/

/-- Whether any of the `x`/`y`/`z` axes of a state is truthy (the
serializer's hardware-acceleration trigger). -/
def anyTruthyAxis (entries : List (String × JSValue)) : Bool :=
  truthy ((jsLookup entries "x").getD .undefined)
    || truthy ((jsLookup entries "y").getD .undefined)
    || truthy ((jsLookup entries "z").getD .undefined)

/-- The combined `translate3d` term: the three axes (absent or falsy axes
defaulting to `0`) serialized by `px.transform` and joined with commas. -/
def hwTranslate3dTerm (entries : List (String × JSValue)) : String :=
  "translate3d(" ++ String.intercalate ","
    ([jsOr ((jsLookup entries "x").getD .undefined) (.num 0),
      jsOr ((jsLookup entries "y").getD .undefined) (.num 0),
      jsOr ((jsLookup entries "z").getD .undefined) (.num 0)].map pxTransform) ++ ") "

/-- Concatenation of a list of strings. -/
def strConcat : List String → String
  | [] => ""
  | s :: rest => s ++ strConcat rest

/-- A left fold appending one term per element equals the initial string
followed by the concatenated terms, in element order. -/
theorem foldl_append_strConcat (f : α → String) (l : List α) : ∀ init : String,
    l.foldl (fun acc x => acc ++ f x) init = init ++ strConcat (l.map f) := by
  induction l with
  | nil => intro init; simp [strConcat, String.append_empty]
  | cons x xs ih =>
    intro init
    simp only [List.foldl_cons, List.map_cons, strConcat]
    rw [ih, String.append_assoc]

/-- Claim C8, counterexample. The serializer emits operations in the
state's own entry order, not in the fixed canonical
perspective–translate–scale–rotate–skew order: a state listing `rotate`
before `perspective` serializes with `rotate` first, violating the
canonical order (`perspective` ranks before `rotate`).  Moreover `x` set
to `0` is falsy, so no `translate3d` term is emitted for it — the neutral
`translateZ(0px)` appears instead. -/
theorem serialize_order_counterexample :
    claimCanonicalOrder
        (serializeTransform [("rotate", .num 90), ("perspective", .num 100)] true) = false
    ∧ serializeTransform [("rotate", .num 90), ("perspective", .num 100)] true =
        "rotate(90deg) perspective(100px) translateZ(0px)"
    ∧ canonicalRank "perspective" = some 0
    ∧ canonicalRank "rotate" = some 3
    ∧ serializeTransform [("x", .num 0)] true = "translateZ(0px)" :=
  ⟨rfl, rfl, rfl, rfl, rfl⟩

/-- Claim C8, amended. The serialized transform consists of: an optional
leading `translate3d` term combining the three axes exactly when hardware
acceleration is on and at least one of `x`/`y`/`z` is truthy (absent or
falsy axes default to `0`, each axis serialized by `px.transform`);
then one term per state entry *in entry order* (the `x`/`y`/`z` keys
contributing nothing under hardware acceleration, and otherwise being
aliased to `translateX`/`translateY`/`translateZ`); then the neutral
`translateZ(0px)` exactly when hardware acceleration is on and no axis
was truthy; the whole string trimmed. -/
theorem serialize_transform_amended_spec (entries : List (String × JSValue)) :
    serializeTransform entries true =
      jsTrim ((if anyTruthyAxis entries then hwTranslate3dTerm entries else "")
        ++ strConcat (entries.map (serTerm true))
        ++ (if anyTruthyAxis entries then "" else "translateZ(0px) "))
    ∧ (∀ v : JSValue,
        serTerm true ("x", v) = "" ∧ serTerm true ("y", v) = "" ∧ serTerm true ("z", v) = "")
    ∧ (∀ (key : String) (v : JSValue), key ≠ "x" → key ≠ "y" → key ≠ "z" →
        serTerm true (key, v) =
          ((translateAlias key).getD key) ++ "(" ++
            jsValueToString (getValueAsType v (getValueType key)) ++ ") ")
    ∧ (∀ (key : String) (v : JSValue),
        serTerm false (key, v) =
          ((translateAlias key).getD key) ++ "(" ++
            jsValueToString (getValueAsType v (getValueType key)) ++ ") ") := by
  refine ⟨?_, ?_, ?_, ?_⟩
  · simp only [serializeTransform, anyTruthyAxis, hwTranslate3dTerm, Bool.true_and]
    rw [foldl_append_strConcat (serTerm true) entries]
    by_cases h : (truthy ((jsLookup entries "x").getD .undefined)
        || truthy ((jsLookup entries "y").getD .undefined)
        || truthy ((jsLookup entries "z").getD .undefined)) = true
    · simp [h, String.append_empty, String.append_assoc]
    · simp only [Bool.not_eq_true] at h
      simp [h, String.append_assoc]
  · intro v; exact ⟨rfl, rfl, rfl⟩
  · intro key v hx hy hz
    simp [serTerm, hx, hy, hz]
  · intro key v
    simp [serTerm]

/-- Witness for the amended C8: a one-entry `rotate` state serializes as
the (empty) axis prefix, the rotate term in entry position, and the
neutral `translateZ(0px)` suffix. -/
theorem serialize_transform_amended_spec_witness :
    ("rotate" ≠ "x") ∧ ("rotate" ≠ "y") ∧ ("rotate" ≠ "z")
    ∧ serTerm true ("rotate", .num 90) =
        ((translateAlias "rotate").getD "rotate") ++ "(" ++
          jsValueToString (getValueAsType (.num 90) (getValueType "rotate")) ++ ") "
    ∧ serializeTransform [("rotate", .num 90)] true =
        jsTrim ((if anyTruthyAxis [("rotate", .num 90)] then
            hwTranslate3dTerm [("rotate", .num 90)] else "")
          ++ strConcat ([("rotate", .num 90)].map (serTerm true))
          ++ (if anyTruthyAxis [("rotate", .num 90)] then "" else "translateZ(0px) ")) :=
  ⟨by decide, by decide, by decide,
   (serialize_transform_amended_spec [("rotate", .num 90)]).2.2.1 "rotate" (.num 90)
     (by decide) (by decide) (by decide),
   (serialize_transform_amended_spec [("rotate", .num 90)]).1⟩

/-! Part: C10: `push` with `transition.immediate` -/

/-- The token-bound invariant of the orchestration state: every fired
token and every wired token was allocated (is below the counter). -/
def tokensBound (s : TransState) : Prop :=
  (∀ x ∈ s.firedTokens, x < s.nextToken)
  ∧ (∀ (k : String) (e : MotionEntry), jsLookup s.motionValues k = some e →
      ∀ x, e.activeToken = some x → x < s.nextToken)

/-- What `pushStep` does for an `immediate` transition, spelled out. -/
theorem pushStep_immediate_eq (complexTest : String → Bool) (gan : String → String → JSValue)
    (key : String) (value : JSValue) (transition : Transition) (s : TransState)
    (him : transition.base.immediate = true) :
    pushStep complexTest gan key value transition s =
      { s with
          motionValues := jsSet s.motionValues key
            { s.getEntry key ((jsLookup s.targetBag key).getD .undefined) with current := value }
          targetBag := jsSet s.targetBag key value
          nextToken := s.nextToken + 1 } := by
  simp [pushStep, him]

/-- What `pushStep` does when the strategy is the immediate set. -/
theorem pushStep_set_eq (complexTest : String → Bool) (gan : String → String → JSValue)
    (key : String) (value : JSValue) (transition : Transition) (s : TransState)
    (him : transition.base.immediate = false)
    (hch : getAnimationChoice complexTest gan key
        ((s.getEntry key ((jsLookup s.targetBag key).getD .undefined)).current)
        value transition = .immediateSet) :
    pushStep complexTest gan key value transition s =
      { s with
          motionValues := jsSet s.motionValues key
            { current := value
              slot := ((s.getEntry key ((jsLookup s.targetBag key).getD .undefined)).slot.startA).1.completeA
                ((s.getEntry key ((jsLookup s.targetBag key).getD .undefined)).slot.startA).2
              activeToken := none }
          targetBag := jsSet s.targetBag key value
          firedTokens := s.nextToken :: s.firedTokens
          nextToken := s.nextToken + 1 } := by
  simp [pushStep, him, hch]

/-- What `pushStep` does when the strategy starts an engine animation. -/
theorem pushStep_start_eq (complexTest : String → Bool) (gan : String → String → JSValue)
    (key : String) (value : JSValue) (transition : Transition) (s : TransState)
    (him : transition.base.immediate = false)
    (hch : getAnimationChoice complexTest gan key
        ((s.getEntry key ((jsLookup s.targetBag key).getD .undefined)).current)
        value transition = .startAnim) :
    pushStep complexTest gan key value transition s =
      { s with
          motionValues := jsSet s.motionValues key
            { current := (s.getEntry key ((jsLookup s.targetBag key).getD .undefined)).current
              slot := ((s.getEntry key ((jsLookup s.targetBag key).getD .undefined)).slot.startA).1
              activeToken := some s.nextToken }
          nextToken := s.nextToken + 1
          engineCalls := s.engineCalls + 1 } := by
  simp [pushStep, him, hch]

/-- A registry entry's wired token is bounded whenever all entries' are
(`getEntry` returns an existing entry or a fresh unwired one). -/
theorem getEntry_activeToken_lt (s : TransState) (k : String) (fromV : JSValue)
    (ha : ∀ (k' : String) (e : MotionEntry), jsLookup s.motionValues k' = some e →
      ∀ x, e.activeToken = some x → x < s.nextToken) :
    ∀ x, (s.getEntry k fromV).activeToken = some x → x < s.nextToken := by
  intro x hx
  unfold TransState.getEntry at hx
  cases hlk : jsLookup s.motionValues k with
  | none => rw [hlk] at hx; simp at hx
  | some e0 => rw [hlk] at hx; exact ha k e0 hlk x hx

/-- A registry entry is not wired to `t` whenever no entry is. -/
theorem getEntry_activeToken_ne (s : TransState) (k : String) (fromV : JSValue) (t : ℕ)
    (h2 : ∀ (k' : String) (e : MotionEntry), jsLookup s.motionValues k' = some e →
      e.activeToken ≠ some t) :
    (s.getEntry k fromV).activeToken ≠ some t := by
  intro hx
  unfold TransState.getEntry at hx
  cases hlk : jsLookup s.motionValues k with
  | none => rw [hlk] at hx; simp at hx
  | some e0 => rw [hlk] at hx; exact h2 k e0 hlk hx

/-- Model of `engineCompleteStep` is a no-op for an unknown key. -/
theorem engineCompleteStep_none_eq (key : String) (s : TransState)
    (hlk : jsLookup s.motionValues key = none) :
    engineCompleteStep key s = s := by
  simp [engineCompleteStep, hlk]

/-- Model of `engineCompleteStep` is a no-op when no animation is installed. -/
theorem engineCompleteStep_idle_eq (key : String) (s : TransState) (e : MotionEntry)
    (hlk : jsLookup s.motionValues key = some e) (hact : e.slot.active = none) :
    engineCompleteStep key s = s := by
  simp [engineCompleteStep, hlk, hact]

/-- What `engineCompleteStep` does to an installed animation. -/
theorem engineCompleteStep_active_eq (key : String) (s : TransState) (e : MotionEntry)
    (n : ℕ) (hlk : jsLookup s.motionValues key = some e) (hact : e.slot.active = some n) :
    engineCompleteStep key s =
      { s with
          motionValues := jsSet s.motionValues key
            { e with slot := e.slot.completeA n, activeToken := none }
          firedTokens :=
            match e.activeToken with
            | some tok => tok :: s.firedTokens
            | none => s.firedTokens } := by
  simp [engineCompleteStep, hlk, hact]

/-- One event preserves the token bound. -/
theorem tokensBound_step (complexTest : String → Bool) (gan : String → String → JSValue)
    (s : TransState) (ev : TransEvent) (hb : tokensBound s) :
    tokensBound (TransState.step complexTest gan s ev) := by
  obtain ⟨hf, ha⟩ := hb
  cases ev with
  | push key value transition =>
    show tokensBound (pushStep complexTest gan key value transition s)
    by_cases him : transition.base.immediate = true
    · rw [pushStep_immediate_eq complexTest gan key value transition s him]
      refine ⟨fun x hx => Nat.lt_succ_of_lt (hf x hx), ?_⟩
      intro k e hk x hx
      rw [jsLookup_jsSet] at hk
      by_cases hkey : key = k
      · subst hkey
        rw [if_pos rfl] at hk
        injection hk with hk'
        subst hk'
        exact Nat.lt_succ_of_lt (getEntry_activeToken_lt s key _ ha x hx)
      · rw [if_neg hkey] at hk
        exact Nat.lt_succ_of_lt (ha k e hk x hx)
    · rw [Bool.not_eq_true] at him
      cases hch : getAnimationChoice complexTest gan key
          ((s.getEntry key ((jsLookup s.targetBag key).getD .undefined)).current)
          value transition with
      | immediateSet =>
        rw [pushStep_set_eq complexTest gan key value transition s him hch]
        refine ⟨?_, ?_⟩
        · intro x hx
          have hx' : x = s.nextToken ∨ x ∈ s.firedTokens := List.mem_cons.mp hx
          rcases hx' with h | h
          · show x < s.nextToken + 1
            omega
          · exact Nat.lt_succ_of_lt (hf x h)
        · intro k e hk x hx
          rw [jsLookup_jsSet] at hk
          by_cases hkey : key = k
          · subst hkey
            rw [if_pos rfl] at hk
            injection hk with hk'
            subst hk'
            exact absurd hx (by simp)
          · rw [if_neg hkey] at hk
            exact Nat.lt_succ_of_lt (ha k e hk x hx)
      | startAnim =>
        rw [pushStep_start_eq complexTest gan key value transition s him hch]
        refine ⟨fun x hx => Nat.lt_succ_of_lt (hf x hx), ?_⟩
        intro k e hk x hx
        rw [jsLookup_jsSet] at hk
        by_cases hkey : key = k
        · subst hkey
          rw [if_pos rfl] at hk
          injection hk with hk'
          subst hk'
          have hx' : some s.nextToken = some x := hx
          injection hx' with hxx
          show x < s.nextToken + 1
          omega
        · rw [if_neg hkey] at hk
          exact Nat.lt_succ_of_lt (ha k e hk x hx)
  | engineComplete key =>
    show tokensBound (engineCompleteStep key s)
    cases hlk : jsLookup s.motionValues key with
    | none => rw [engineCompleteStep_none_eq key s hlk]; exact ⟨hf, ha⟩
    | some e =>
      cases hact : e.slot.active with
      | none => rw [engineCompleteStep_idle_eq key s e hlk hact]; exact ⟨hf, ha⟩
      | some n =>
        rw [engineCompleteStep_active_eq key s e n hlk hact]
        refine ⟨?_, ?_⟩
        · intro x hx
          cases htok : e.activeToken with
          | none => rw [htok] at hx; exact hf x hx
          | some tok =>
            rw [htok] at hx
            rcases List.mem_cons.mp hx with h | h
            · exact h ▸ ha key e hlk tok htok
            · exact hf x h
        · intro k e' hk x hx
          rw [jsLookup_jsSet] at hk
          by_cases hkey : key = k
          · subst hkey
            rw [if_pos rfl] at hk
            injection hk with hk'
            subst hk'
            exact absurd hx (by simp)
          · rw [if_neg hkey] at hk
            exact ha k e' hk x hx

/-- The non-firing invariant for a stale, unwired token `t`: `t` has not
fired, is wired to no value's installed animation, and is below the
counter — preserved by every event. -/
def tokenUnwired (t : ℕ) (s : TransState) : Prop :=
  t ∉ s.firedTokens
  ∧ (∀ (k : String) (e : MotionEntry), jsLookup s.motionValues k = some e →
      e.activeToken ≠ some t)
  ∧ t < s.nextToken

/-- One event preserves `tokenUnwired`. -/
theorem tokenUnwired_step (complexTest : String → Bool) (gan : String → String → JSValue)
    (t : ℕ) (s : TransState) (ev : TransEvent) (h : tokenUnwired t s) :
    tokenUnwired t (TransState.step complexTest gan s ev) := by
  obtain ⟨h1, h2, h3⟩ := h
  cases ev with
  | push key value transition =>
    show tokenUnwired t (pushStep complexTest gan key value transition s)
    by_cases him : transition.base.immediate = true
    · rw [pushStep_immediate_eq complexTest gan key value transition s him]
      refine ⟨h1, ?_, Nat.lt_succ_of_lt h3⟩
      intro k e hk
      rw [jsLookup_jsSet] at hk
      by_cases hkey : key = k
      · subst hkey
        rw [if_pos rfl] at hk
        injection hk with hk'
        subst hk'
        exact getEntry_activeToken_ne s key _ t h2
      · rw [if_neg hkey] at hk
        exact h2 k e hk
    · rw [Bool.not_eq_true] at him
      cases hch : getAnimationChoice complexTest gan key
          ((s.getEntry key ((jsLookup s.targetBag key).getD .undefined)).current)
          value transition with
      | immediateSet =>
        rw [pushStep_set_eq complexTest gan key value transition s him hch]
        refine ⟨?_, ?_, Nat.lt_succ_of_lt h3⟩
        · intro hx
          rcases List.mem_cons.mp hx with h | h
          · omega
          · exact h1 h
        · intro k e hk
          rw [jsLookup_jsSet] at hk
          by_cases hkey : key = k
          · subst hkey
            rw [if_pos rfl] at hk
            injection hk with hk'
            subst hk'
            simp
          · rw [if_neg hkey] at hk
            exact h2 k e hk
      | startAnim =>
        rw [pushStep_start_eq complexTest gan key value transition s him hch]
        refine ⟨h1, ?_, Nat.lt_succ_of_lt h3⟩
        intro k e hk
        rw [jsLookup_jsSet] at hk
        by_cases hkey : key = k
        · subst hkey
          rw [if_pos rfl] at hk
          injection hk with hk'
          subst hk'
          intro hcontra
          have : s.nextToken = t := Option.some.inj hcontra
          omega
        · rw [if_neg hkey] at hk
          exact h2 k e hk
  | engineComplete key =>
    show tokenUnwired t (engineCompleteStep key s)
    cases hlk : jsLookup s.motionValues key with
    | none => rw [engineCompleteStep_none_eq key s hlk]; exact ⟨h1, h2, h3⟩
    | some e =>
      cases hact : e.slot.active with
      | none => rw [engineCompleteStep_idle_eq key s e hlk hact]; exact ⟨h1, h2, h3⟩
      | some n =>
        rw [engineCompleteStep_active_eq key s e n hlk hact]
        refine ⟨?_, ?_, h3⟩
        · cases htok : e.activeToken with
          | none => exact h1
          | some tok =>
            intro hx
            rcases List.mem_cons.mp hx with h | h
            · exact h2 key e hlk (h ▸ htok)
            · exact h1 h
        · intro k e' hk
          rw [jsLookup_jsSet] at hk
          by_cases hkey : key = k
          · subst hkey
            rw [if_pos rfl] at hk
            injection hk with hk'
            subst hk'
            simp
          · rw [if_neg hkey] at hk
            exact h2 k e' hk

/-- Model of `tokenUnwired` is preserved by any event sequence. -/
theorem tokenUnwired_run (complexTest : String → Bool) (gan : String → String → JSValue)
    (t : ℕ) (evs : List TransEvent) : ∀ s : TransState, tokenUnwired t s →
    tokenUnwired t (TransState.run complexTest gan s evs) := by
  induction evs with
  | nil => intro s h; exact h
  | cons ev rest ih =>
    intro s h
    exact ih _ (tokenUnwired_step complexTest gan t s ev h)

/-- Model of `tokensBound` holds for every reachable orchestration state. -/
theorem tokensBound_run (complexTest : String → Bool) (gan : String → String → JSValue)
    (evs : List TransEvent) : ∀ s : TransState, tokensBound s →
    tokensBound (TransState.run complexTest gan s evs) := by
  induction evs with
  | nil => intro s h; exact h
  | cons ev rest ih =>
    intro s h
    exact ih _ (tokensBound_step complexTest gan s ev h)

/-- Claim C10. From any reachable orchestration state, a `push` whose
transition carries `immediate` writes the target value into the motion
value (and, through its `onChange` subscription, into the property bag)
and returns at once: the value's animation slot and wired completion are
untouched (an in-flight animation is not cancelled), no engine call is
made, nothing fires now, and the per-call completion token allocated for
this push can never fire afterwards — so an `apply` whose variant carries
`transition.immediate` yields per-property completions that never
settle. -/
theorem push_immediate_spec (complexTest : String → Bool) (gan : String → String → JSValue)
    (pre : List TransEvent) (bag : List (String × JSValue))
    (key : String) (value : JSValue) (transition : Transition)
    (post : List TransEvent)
    (him : transition.base.immediate = true) :
    ((jsLookup (pushStep complexTest gan key value transition
        (TransState.run complexTest gan (TransState.init bag) pre)).motionValues key).map
          MotionEntry.current = some value)
    ∧ jsLookup (pushStep complexTest gan key value transition
        (TransState.run complexTest gan (TransState.init bag) pre)).targetBag key = some value
    ∧ (∀ e : MotionEntry,
        jsLookup (TransState.run complexTest gan (TransState.init bag) pre).motionValues key =
          some e →
        jsLookup (pushStep complexTest gan key value transition
            (TransState.run complexTest gan (TransState.init bag) pre)).motionValues key =
          some { e with current := value })
    ∧ (pushStep complexTest gan key value transition
        (TransState.run complexTest gan (TransState.init bag) pre)).engineCalls =
      (TransState.run complexTest gan (TransState.init bag) pre).engineCalls
    ∧ (pushStep complexTest gan key value transition
        (TransState.run complexTest gan (TransState.init bag) pre)).firedTokens =
      (TransState.run complexTest gan (TransState.init bag) pre).firedTokens
    ∧ (TransState.run complexTest gan (TransState.init bag) pre).nextToken ∉
        (TransState.run complexTest gan
          (pushStep complexTest gan key value transition
            (TransState.run complexTest gan (TransState.init bag) pre)) post).firedTokens := by
  have hbound : tokensBound (TransState.run complexTest gan (TransState.init bag) pre) := by
    refine tokensBound_run complexTest gan pre _ ?_
    exact ⟨fun x hx => by simp [TransState.init] at hx,
      fun k e hk => by simp [TransState.init, jsLookup] at hk⟩
  set s := TransState.run complexTest gan (TransState.init bag) pre with hsdef
  rw [pushStep_immediate_eq complexTest gan key value transition s him]
  refine ⟨?_, ?_, ?_, rfl, rfl, ?_⟩
  · rw [jsLookup_jsSet, if_pos rfl]
    rfl
  · rw [jsLookup_jsSet, if_pos rfl]
  · intro e he
    rw [jsLookup_jsSet, if_pos rfl]
    unfold TransState.getEntry
    rw [he]
  · have hstart : tokenUnwired s.nextToken
        { s with
            motionValues := jsSet s.motionValues key
              { s.getEntry key ((jsLookup s.targetBag key).getD .undefined) with current := value }
            targetBag := jsSet s.targetBag key value
            nextToken := s.nextToken + 1 } := by
      refine ⟨?_, ?_, ?_⟩
      · intro hx
        exact Nat.lt_irrefl s.nextToken (hbound.1 _ hx)
      · intro k e hk
        rw [jsLookup_jsSet] at hk
        by_cases hkey : key = k
        · subst hkey
          rw [if_pos rfl] at hk
          injection hk with hk'
          subst hk'
          refine getEntry_activeToken_ne s key _ s.nextToken ?_
          intro k' e' hk' hcontra
          exact Nat.lt_irrefl s.nextToken (hbound.2 k' e' hk' _ hcontra)
        · rw [if_neg hkey] at hk
          intro hcontra
          exact Nat.lt_irrefl s.nextToken (hbound.2 k e hk _ hcontra)
      · show s.nextToken < s.nextToken + 1
        omega
    exact (tokenUnwired_run complexTest gan s.nextToken post _ hstart).1

/-- Witness for C10: one immediate push of `opacity: 1` over a fresh
subject whose bag starts at `opacity: 0`; the value is written, no engine
call happens, and token `0` never fires, even after a later engine
completion event. -/
theorem push_immediate_spec_witness :
    (({ base := { immediate := true } } : Transition).base.immediate = true)
    ∧ (jsLookup (pushStep (fun _ => false) (fun _ _ => .undefined) "opacity" (.num 1)
        { base := { immediate := true } }
        (TransState.run (fun _ => false) (fun _ _ => .undefined)
          (TransState.init [("opacity", .num 0)]) [])).motionValues "opacity").map
        MotionEntry.current = some (.num 1)
    ∧ (0 : ℕ) ∉
        (TransState.run (fun _ => false) (fun _ _ => .undefined)
          (pushStep (fun _ => false) (fun _ _ => .undefined) "opacity" (.num 1)
            { base := { immediate := true } }
            (TransState.run (fun _ => false) (fun _ _ => .undefined)
              (TransState.init [("opacity", .num 0)]) []))
          [.engineComplete "opacity"]).firedTokens :=
  ⟨rfl,
   (push_immediate_spec (fun _ => false) (fun _ _ => .undefined) [] [("opacity", .num 0)]
      "opacity" (.num 1) { base := { immediate := true } } [.engineComplete "opacity"] rfl).1,
   (push_immediate_spec (fun _ => false) (fun _ _ => .undefined) [] [("opacity", .num 0)]
      "opacity" (.num 1) { base := { immediate := true } } [.engineComplete "opacity"] rfl).2.2.2.2.2⟩

end Motion
